import Mathlib

/-!
Verification of the connectivity-srm repository's core algorithms
(`src/encoding_model.py` and `src/ts_classification.py`) against its
natural-language specification.

Matrices are modelled as lists of rows over `ℚ` (real-valued arrays in the
source; no floating-point effects are claimed here).  NumPy's NaN sentinel in
`delay_embedding` is modelled with `Option ℚ` (`none` = NaN); operations that
can raise in Python (`np.hstack` with mismatched heights, out-of-bounds column
indexing, `assert`, `ValueError`) return `Option`/`Except`.
-/

namespace ConnSRM

/-- Number of columns of a list-of-rows matrix (NumPy `m.shape[1]`; for a
well-formed matrix every row has this length). -/
def numCols (m : List (List ℚ)) : Nat := (m.headD []).length

/-- Python slice `rows[:-d]`: empty when `d = 0` (slice `[0:0]`), otherwise
the first `length - d` rows. -/
def sliceDropLast {α : Type} (rows : List α) (d : Nat) : List α :=
  if d = 0 then [] else rows.take (rows.length - d)

/-- One delayed block of `delay_embedding` before NaN zeroing
(`np.vstack((np.full((delay, embedding.shape[1]), np.nan), embedding[:-delay]))`,
encoding_model.py lines 29-32).  `none` stands for NaN. -/
def delayedBlock (embedding : List (List ℚ)) (d : Nat) : List (List (Option ℚ)) :=
  List.replicate d (List.replicate (numCols embedding) none)
    ++ (sliceDropLast embedding d).map (fun row => row.map some)

/-- Column-wise concatenation of two matrices (`np.hstack` on two blocks);
`none` when the row counts disagree (NumPy raises `ValueError`). -/
def hstack2 {α : Type} : List (List α) → List (List α) → Option (List (List α))
  | [], [] => some []
  | r1 :: t1, r2 :: t2 => (hstack2 t1 t2).map (fun rest => (r1 ++ r2) :: rest)
  | _, _ => none

/-- `np.hstack` over a list of blocks, left to right; `none` on an empty list
(NumPy raises) or mismatched row counts. -/
def hstackAll {α : Type} : List (List (List α)) → Option (List (List α))
  | [] => none
  | [b] => some b
  | b :: rest => (hstackAll rest).bind (fun tail => hstack2 b tail)

/-- `delayed[np.isnan(delayed)] = 0` (encoding_model.py line 36): every NaN
entry becomes `0`. -/
def zeroNaN (m : List (List (Option ℚ))) : List (List ℚ) :=
  m.map (fun row => row.map (fun x => x.getD 0))

/-- `delay_embedding` (encoding_model.py lines 23-42) on the
`zscore_features=False` path used by the claims: horizontally stack the
embedding shifted by each delay (shifted-in rows NaN), then zero the NaNs. -/
def delay_embedding (embedding : List (List ℚ)) (delays : List Nat) :
    Option (List (List ℚ)) :=
  (hstackAll (delays.map (fun d => delayedBlock embedding d))).map zeroNaN

/-- The matrix the spec describes for `delay_embedding`: row `r` is the
concatenation over the ordered delays of either an all-zero row (when `r < d`)
or the input's row `r - d`.  Used only to be compared with `delay_embedding`. -/
def delayedRowSpec (embedding : List (List ℚ)) (F : Nat) (delays : List Nat)
    (r : Nat) : List ℚ :=
  (delays.map (fun d =>
    if r < d then List.replicate F (0 : ℚ) else embedding.getD (r - d) [])).flatten

/-- Spec-described delay embedding as a whole matrix (one row per input row). -/
def delayEmbeddingSpec (embedding : List (List ℚ)) (F : Nat) (delays : List Nat) :
    List (List ℚ) :=
  (List.range embedding.length).map (delayedRowSpec embedding F delays)

/-- `List.mapM` specialised to `Except` with the Python loop's left-to-right
short-circuit at the first raised error, written recursively so proofs can
proceed by structural induction. -/
def exceptMapM {α β : Type} (f : α → Except String β) : List α → Except String (List β)
  | [] => Except.ok []
  | x :: xs =>
    match f x with
    | Except.error e => Except.error e
    | Except.ok y =>
      match exceptMapM f xs with
      | Except.error e => Except.error e
      | Except.ok ys => Except.ok (y :: ys)

/-- `List.mapM` specialised to `Option`, recursive for easy induction. -/
def optionMapM {α β : Type} (f : α → Option β) : List α → Option (List β)
  | [] => some []
  | x :: xs => do
      let y ← f x
      let ys ← optionMapM f xs
      some (y :: ys)

/-! ### ts_classification.py: time_segmentation -/

/-- Column-wise mean of a list of rows (`np.mean(segment, axis=0)` for a
well-formed segment). -/
def np_mean_axis0 (rows : List (List ℚ)) : List ℚ :=
  (List.range (numCols rows)).map
    (fun c => (rows.map (fun r => r.getD c 0)).sum / (rows.length : ℚ))

/-- Chunk sizes of `np.array_split(xs, n)`: the first `len % n` chunks get
`len / n + 1` elements, the rest `len / n`. -/
def splitSizes (len n : Nat) : List Nat :=
  (List.range n).map (fun i => if i < len % n then len / n + 1 else len / n)

/-- Cut a list into consecutive chunks of the given sizes. -/
def takeChunks {α : Type} : List Nat → List α → List (List α)
  | [], _ => []
  | s :: rest, xs => xs.take s :: takeChunks rest (xs.drop s)

/-- `np.array_split(xs, n, axis=0)` on the row axis. -/
def array_split {α : Type} (xs : List α) (n : Nat) : List (List α) :=
  takeChunks (splitSizes xs.length n) xs

/-- `time_segmentation` (ts_classification.py lines 9-37).  `n_segments` is
`n_TRs // segment_length`; `modulo` is `n_TRs % n_segments`, so the result is
`none` when `n_segments = 0` (Python raises `ZeroDivisionError`).  When
`modulo` is nonzero the trailing `modulo` rows are dropped (`data[:-modulo]`)
before splitting; each chunk is flattened row-major (`np.ravel`) or averaged
(`np.mean(..., axis=0)`). -/
def time_segmentation (data : List (List ℚ)) (segment_length : Nat)
    (average : Bool) : Option (List (List ℚ)) :=
  if data.length / segment_length = 0 then none
  else if data.length % (data.length / segment_length) = 0 then
    if average then
      some ((array_split data (data.length / segment_length)).map np_mean_axis0)
    else
      some ((array_split data (data.length / segment_length)).map List.flatten)
  else
    if average then
      some ((array_split
        (sliceDropLast data (data.length % (data.length / segment_length)))
        (data.length / segment_length)).map np_mean_axis0)
    else
      some ((array_split
        (sliceDropLast data (data.length % (data.length / segment_length)))
        (data.length / segment_length)).map List.flatten)

/-! ### ts_classification.py: correlation_classification -/

/-- `np.amax` of a 1-D array; `none` on the empty array (NumPy raises). -/
def np_amax : List ℚ → Option ℚ
  | [] => none
  | x :: xs => some (xs.foldl max x)

/-- Entry `(i, j, s)` of a `(segments, segments, subjects)` correlation tensor
stored as nested row lists. -/
def tEntry (t : List (List (List ℚ))) (i j s : Nat) : ℚ :=
  ((t.getD i []).getD j []).getD s 0

/-- Subject-indexed slices of the tensor, as produced by
`np.moveaxis(correlations, 2, 0)`: slice `s` is the `(segments, segments)`
matrix `(i, j) ↦ t[i][j][s]`. -/
def moveaxis20 (t : List (List (List ℚ))) (n_subjects : Nat) :
    List (List (List ℚ)) :=
  (List.range n_subjects).map
    (fun s => t.map (fun row => row.map (fun e => e.getD s 0)))

/-- Hit flags of one subject's correlation slice (ts_classification.py lines
85-92): segment `i` is a hit iff `row[i]` strictly exceeds
`np.amax([row[off] for off in np.arange(len(row)) if off != i])`; `none` when
that list is empty (NumPy raises). -/
def hitsOfSlice (corr : List (List ℚ)) : Option (List Bool) :=
  optionMapM
    (fun i =>
      (np_amax (((List.range (corr.getD i []).length).filter
            (fun off => off ≠ i)).map
          (fun off => (corr.getD i []).getD off 0))).map
        (fun m => decide ((corr.getD i []).getD i 0 > m)))
    (List.range corr.length)

/-- The spec's hit rule for segment `i` of subject `s`: the diagonal entry
`(i, i)` strictly exceeds every off-diagonal entry of row `i` (a tie is not a
hit).  Used only to be compared with `correlation_classification`. -/
def strictRowHit (t : List (List (List ℚ))) (n s i : Nat) : Bool :=
  decide (∀ j, j < n → j ≠ i → tEntry t i j s < tEntry t i i s)

/-- `correlation_classification` (ts_classification.py lines 80-98): per
subject, accuracy = hits / n_segments where `n_segments = correlations.shape[0]`
and subjects are iterated via `np.moveaxis(correlations, 2, 0)`; also returns
`chance = 1 / n_segments`. -/
def correlation_classification (t : List (List (List ℚ))) :
    Option (List ℚ × ℚ) :=
  (optionMapM
      (fun corr => (hitsOfSlice corr).map
        (fun hits => ((hits.count true : ℚ) / (t.length : ℚ))))
      (moveaxis20 t ((t.headD []).headD []).length)).map
    (fun accuracies => (accuracies, 1 / (t.length : ℚ)))

/-! ### ts_classification.py: the two `__main__` cache loops -/

/-- A leaf of the nested results cache: either the freshly inserted empty dict
`{}` or a stored numeric array. -/
inductive Leaf where
  | empty : Leaf
  | val : List ℚ → Leaf
deriving DecidableEq

/-- String-keyed association list standing for a Python dict (insertion
order preserved). -/
abbrev Dict (α : Type) := List (String × α)

/-- Dict lookup (`k in d` / `d[k]`). -/
def dictGet {α : Type} (d : Dict α) (k : String) : Option α :=
  (d.find? (fun p => p.1 = k)).map (fun p => p.2)

/-- Dict store `d[k] = v`: replace the existing binding or append a new one. -/
def dictSet {α : Type} (d : Dict α) (k : String) (v : α) : Dict α :=
  if (d.find? (fun p => p.1 = k)).isSome then
    d.map (fun p => if p.1 = k then (k, v) else p)
  else
    d ++ [(k, v)]

/-- The nested results cache: story → ROI → method label → hemisphere → leaf. -/
abbrev Cache := Dict (Dict (Dict (Dict Leaf)))

/-- The `tSRM` prefix rewrite (ts_classification.py lines 162-163):
`prefix = prefix[0], prefix[1][:-4] + f'{story}-test'`. -/
def tsRewrite (story : String) (p : String × String) : String × String :=
  if p.1.take 4 = "tSRM" then (p.1, p.2.dropRight 4 ++ story ++ "-test") else p

/-- Innermost body of the time-segment-classification loop (lines 165-196):
everything, including the data loading and computation, sits INSIDE
`if hemi not in results[story][roi][prefix[0]]`.  `compute` abstracts
`load_split_data` + `stack_subjects` + `time_segment_correlation` +
`correlation_classification` for the given key. -/
def tsHemiStep (compute : String → String → String × String → String → List ℚ)
    (story roi : String) (p : String × String) (d : Dict Leaf) (hemi : String) :
    Dict Leaf :=
  if (dictGet d hemi).isSome then d
  else
    dictSet (dictSet d hemi Leaf.empty) hemi
      (Leaf.val (compute story roi p hemi))

/-- Method-label level of the ts-classification loop (lines 158-196). -/
def tsPrefixStep (compute : String → String → String × String → String → List ℚ)
    (hemis : List String) (story roi : String) (d : Dict (Dict Leaf))
    (p : String × String) : Dict (Dict Leaf) :=
  let d := if (dictGet d p.1).isSome then d else dictSet d p.1 []
  let p' := tsRewrite story p
  dictSet d p.1
    (hemis.foldl (tsHemiStep compute story roi p') ((dictGet d p.1).getD []))

/-- ROI level of the ts-classification loop (lines 154-196). -/
def tsRoiStep (compute : String → String → String × String → String → List ℚ)
    (methodPairs : List (String × String)) (hemis : List String) (story : String)
    (d : Dict (Dict (Dict Leaf))) (roi : String) : Dict (Dict (Dict Leaf)) :=
  let d := if (dictGet d roi).isSome then d else dictSet d roi []
  dictSet d roi
    (methodPairs.foldl (tsPrefixStep compute hemis story roi)
      ((dictGet d roi).getD []))

/-- Story level of the ts-classification loop (lines 150-196). -/
def tsStoryStep (compute : String → String → String × String → String → List ℚ)
    (rois : List String) (methodPairs : List (String × String))
    (hemis : List String) (c : Cache) (story : String) : Cache :=
  let c := if (dictGet c story).isSome then c else dictSet c story []
  dictSet c story
    (rois.foldl (tsRoiStep compute methodPairs hemis story)
      ((dictGet c story).getD []))

/-- The whole time-segment-classification batch loop
(ts_classification.py lines 149-196) over a starting cache. -/
def ts_classification_loop
    (compute : String → String → String × String → String → List ℚ)
    (stories rois : List String) (methodPairs : List (String × String))
    (hemis : List String) (results : Cache) : Cache :=
  stories.foldl (tsStoryStep compute rois methodPairs hemis) results

/-- Innermost body of the ISC loop (lines 232-259): the guard
`if hemi not in results[story][roi][prefix[0]]` only inserts `{}`; the data
loading, ISC computation and the store `results[...][hemi] = iscs` run
UNCONDITIONALLY afterwards (they are indented at the `for hemi` level). -/
def iscHemiStep (compute : String → String → String × String → String → List ℚ)
    (story roi : String) (p : String × String) (d : Dict Leaf) (hemi : String) :
    Dict Leaf :=
  let d := if (dictGet d hemi).isSome then d else dictSet d hemi Leaf.empty
  dictSet d hemi (Leaf.val (compute story roi p hemi))

/-- Method-label level of the ISC loop (lines 228-259; no `tSRM` rewrite). -/
def iscPrefixStep (compute : String → String → String × String → String → List ℚ)
    (hemis : List String) (story roi : String) (d : Dict (Dict Leaf))
    (p : String × String) : Dict (Dict Leaf) :=
  let d := if (dictGet d p.1).isSome then d else dictSet d p.1 []
  dictSet d p.1
    (hemis.foldl (iscHemiStep compute story roi p) ((dictGet d p.1).getD []))

/-- ROI level of the ISC loop (lines 224-259). -/
def iscRoiStep (compute : String → String → String × String → String → List ℚ)
    (methodPairs : List (String × String)) (hemis : List String) (story : String)
    (d : Dict (Dict (Dict Leaf))) (roi : String) : Dict (Dict (Dict Leaf)) :=
  let d := if (dictGet d roi).isSome then d else dictSet d roi []
  dictSet d roi
    (methodPairs.foldl (iscPrefixStep compute hemis story roi)
      ((dictGet d roi).getD []))

/-- Story level of the ISC loop (lines 220-259). -/
def iscStoryStep (compute : String → String → String × String → String → List ℚ)
    (rois : List String) (methodPairs : List (String × String))
    (hemis : List String) (c : Cache) (story : String) : Cache :=
  let c := if (dictGet c story).isSome then c else dictSet c story []
  dictSet c story
    (rois.foldl (iscRoiStep compute methodPairs hemis story)
      ((dictGet c story).getD []))

/-- The whole temporal/spatial ISC batch loop (ts_classification.py lines
219-259) over a starting cache; `compute` abstracts `load_split_data` +
`stack_subjects` + `isc` for the given key. -/
def isc_loop (compute : String → String → String × String → String → List ℚ)
    (stories rois : List String) (methodPairs : List (String × String))
    (hemis : List String) (results : Cache) : Cache :=
  stories.foldl (iscStoryStep compute rois methodPairs hemis) results

/-- Lookup of one leaf at a full (story, ROI, method label, hemisphere) key. -/
def cacheLeaf (c : Cache) (story roi plabel hemi : String) : Option Leaf :=
  (dictGet c story).bind
    (fun d3 => (dictGet d3 roi).bind
      (fun d2 => (dictGet d2 plabel).bind
        (fun d1 => dictGet d1 hemi)))

/-! ### encoding_model.py: load_inputs -/

/-- Everything `metadata[story]` provides about one story: the model
embedding file's contents, the `[start, end]` trim pairs, and the per-subject
surface-data file contents. -/
structure StoryMeta where
  model : List (List ℚ)
  model_trims : Nat × Nat
  data_trims : Nat × Nat
  data : List (String × List (List ℚ))
deriving DecidableEq

/-- Python slice `rows[a:(-b or None)]` (encoding_model.py lines 58 and 73):
`b = 0` means no trailing trim, otherwise the last `b` rows are cut. -/
def pyTrim {α : Type} (rows : List α) (t : Nat × Nat) : List α :=
  if t.2 = 0 then rows.drop t.1 else (rows.take (rows.length - t.2)).drop t.1

/-- `surf_data[:, mask]` for an optional boolean column mask. -/
def applyMask (mask : Option (List Bool)) (surf : List (List ℚ)) :
    List (List ℚ) :=
  match mask with
  | none => surf
  | some mk => surf.map (fun row => ((row.zip mk).filter (fun p => p.2)).map
      (fun p => p.1))

/-- Inner body of `load_inputs`'s subject loop (encoding_model.py lines
67-87): trim the subject's surface data by the story's `data_trims`, raise
`ValueError` when the row count differs from the delayed model's, then apply
the optional mask. -/
def loadSubject (mask : Option (List Bool)) (m : StoryMeta) (story : String)
    (modelLen : Nat) (sd : String × List (List ℚ)) :
    Except String (String × List (List ℚ)) :=
  if modelLen = (pyTrim sd.2 m.data_trims).length then
    Except.ok (sd.1, applyMask mask (pyTrim sd.2 m.data_trims))
  else
    Except.error
      ("ValueError: model shape does not match data shape for story " ++ story)

/-- Body of `load_inputs`'s story loop (encoding_model.py lines 52-89): trim
the model embedding by `model_trims`, delay-embed it with the module's
`delays = [2, 3, 4, 5]` (an `np.hstack` failure is a `ValueError`), then load
every subject. -/
def loadStory (mask : Option (List Bool)) (sm : String × StoryMeta) :
    Except String (String × (List (List ℚ) × List (String × List (List ℚ)))) :=
  match delay_embedding (pyTrim sm.2.model sm.2.model_trims) [2, 3, 4, 5] with
  | none => Except.error ("ValueError: np.hstack for story " ++ sm.1)
  | some model =>
    match exceptMapM (loadSubject mask sm.2 sm.1 model.length) sm.2.data with
    | Except.error e => Except.error e
    | Except.ok dataOut => Except.ok (sm.1, (model, dataOut))

/-- `load_inputs` (encoding_model.py lines 46-91) over the requested stories
(given as the association list `metadata` in iteration order). -/
def load_inputs (metadata : List (String × StoryMeta))
    (mask : Option (List Bool)) :
    Except String (List (String × (List (List ℚ) × List (String × List (List ℚ))))) :=
  exceptMapM (loadStory mask) metadata

/-! ### encoding_model.py: split_half -/

/-- One story's loaded inputs: `inputs[story]['model']` and
`inputs[story]['data']`. -/
structure StoryInput where
  model : List (List ℚ)
  data : List (String × List (List ℚ))
deriving DecidableEq

/-- A `(train, test)` ordering of two halves. -/
abbrev SplitPair := List (List ℚ) × List (List ℚ)

/-- The spec's description of one model's split: first half = rows
`0..midpoint-1`, second half = rows `midpoint..end`, each half z-scored on its
own when requested, and the two orderings are exact mirror images
`[(A, B), (B, A)]`.  Used only to be compared with `split_half`. -/
def modelSplitSpec (zs : List (List ℚ) → List (List ℚ)) (zm : Bool)
    (model : List (List ℚ)) : List SplitPair :=
  [((if zm then zs (model.take (model.length / 2))
      else model.take (model.length / 2)),
    (if zm then zs (model.drop (model.length / 2))
      else model.drop (model.length / 2))),
   ((if zm then zs (model.drop (model.length / 2))
      else model.drop (model.length / 2)),
    (if zm then zs (model.take (model.length / 2))
      else model.take (model.length / 2)))]

/-- The spec's description of one subject's split at the model's midpoint,
mirroring `modelSplitSpec`.  Used only to be compared with `split_half`. -/
def dataSplitSpec (zs : List (List ℚ) → List (List ℚ)) (zd : Bool)
    (midpoint : Nat) (data : List (List ℚ)) : List SplitPair :=
  [((if zd then zs (data.take midpoint) else data.take midpoint),
    (if zd then zs (data.drop midpoint) else data.drop midpoint)),
   ((if zd then zs (data.drop midpoint) else data.drop midpoint),
    (if zd then zs (data.take midpoint) else data.take midpoint))]

/-- Body of `split_half`'s subject loop (encoding_model.py lines 119-133):
`assert data.shape[0] == model.shape[0]` (an `AssertionError`), then cut the
data at the model's midpoint, optionally z-score each half on its own, and
keep both orderings `[(first, second), (second, first)]`. -/
def splitSubject (zs : List (List ℚ) → List (List ℚ)) (zscore_data : Bool)
    (modelLen midpoint : Nat) (sd : String × List (List ℚ)) :
    Except String (String × List SplitPair) :=
  if sd.2.length = modelLen then
    Except.ok (sd.1,
      [((if zscore_data then zs (sd.2.take midpoint) else sd.2.take midpoint),
        (if zscore_data then zs (sd.2.drop midpoint) else sd.2.drop midpoint)),
       ((if zscore_data then zs (sd.2.drop midpoint) else sd.2.drop midpoint),
        (if zscore_data then zs (sd.2.take midpoint) else sd.2.take midpoint))])
  else
    Except.error ("AssertionError")

/-- Body of `split_half`'s story loop (encoding_model.py lines 100-133):
`midpoint = model.shape[0] // 2`; the model is cut at the midpoint, each half
optionally z-scored on its own, both orderings kept, and every subject's data
is split the same way. -/
def splitStory (zs : List (List ℚ) → List (List ℚ))
    (zscore_data zscore_model : Bool) (si : String × StoryInput) :
    Except String
      ((String × List SplitPair) × (String × List (String × List SplitPair))) :=
  match exceptMapM
      (splitSubject zs zscore_data si.2.model.length (si.2.model.length / 2))
      si.2.data with
  | Except.error e => Except.error e
  | Except.ok dsubj =>
    Except.ok ((si.1,
      [((if zscore_model then zs (si.2.model.take (si.2.model.length / 2))
          else si.2.model.take (si.2.model.length / 2)),
        (if zscore_model then zs (si.2.model.drop (si.2.model.length / 2))
          else si.2.model.drop (si.2.model.length / 2))),
       ((if zscore_model then zs (si.2.model.drop (si.2.model.length / 2))
          else si.2.model.drop (si.2.model.length / 2)),
        (if zscore_model then zs (si.2.model.take (si.2.model.length / 2))
          else si.2.model.take (si.2.model.length / 2)))]),
      (si.1, dsubj))

/-- `split_half` (encoding_model.py lines 97-135).  `zs` models the external
`scipy.stats.zscore(·, axis=0)` routine as an opaque matrix transform; the
claims are about WHERE it is applied, not its numerics.  The two returned
mappings are the source's `model_splits` and `data_splits` dicts. -/
def split_half (zs : List (List ℚ) → List (List ℚ))
    (inputs : List (String × StoryInput)) (zscore_data zscore_model : Bool) :
    Except String ((List (String × List SplitPair)) ×
      (List (String × List (String × List SplitPair)))) :=
  match exceptMapM (splitStory zs zscore_data zscore_model) inputs with
  | Except.error e => Except.error e
  | Except.ok both =>
    Except.ok (both.map (fun p => p.1), both.map (fun p => p.2))

/-! ### encoding_model.py: grid_search -/

/-- What one `grid.fit(train_model, train_data[:, voxel])` produces, with the
sklearn `GridSearchCV` internals (estimator, scoring, `KFold` cross-validation)
treated as an external black box: the winning alpha, its mean score, and the
`cv_results_` per-split score rows (`n_splits` rows, one score per alpha). -/
structure GridFitResult where
  best_alpha : ℚ
  best_score : ℚ
  split_scores : List (List ℚ)

/-- NumPy column read `m[:, j]`; `IndexError` when `j` is out of bounds. -/
def npColumn (m : List (List ℚ)) (j : Nat) : Except String (List ℚ) :=
  if m.all (fun row => j < row.length) then
    Except.ok (m.map (fun row => row.getD j 0))
  else
    Except.error ("IndexError: index out of bounds")

/-- `np.column_stack` of equal-length 1-D score vectors: the result has one
row per alpha and one column per input vector. -/
def column_stack (vs : List (List ℚ)) : List (List ℚ) :=
  (List.range (vs.headD []).length).map (fun a => vs.map (fun v => v.getD a 0))

/-- `grid_search` (encoding_model.py lines 217-256).  `gridFit` abstracts the
fitted `GridSearchCV` for one voxel's response vector.  Faithfully to the
source, the loop bound is `n_voxels = train_model.shape[1]` (line 220) and the
loop reads `train_data[:, voxel]` (line 237); the trailing shape `assert`
(lines 253-254) is modelled as an `AssertionError` check. -/
def grid_search (gridFit : List ℚ → GridFitResult)
    (train_model train_data : List (List ℚ)) :
    Except String (List ℚ × List ℚ × List (List ℚ)) := do
  let n_voxels := numCols train_model
  let per ← exceptMapM
    (fun voxel => do
      let y ← npColumn train_data voxel
      let r := gridFit y
      Except.ok (r.best_alpha, r.best_score, np_mean_axis0 r.split_scores))
    (List.range n_voxels)
  let best_alphas := per.map (fun p => p.1)
  let best_scores := per.map (fun p => p.2.1)
  let all_scores := column_stack (per.map (fun p => p.2.2))
  if best_alphas.length = n_voxels ∧ best_scores.length = n_voxels ∧
      (all_scores.headD []).length = n_voxels then
    Except.ok (best_alphas, best_scores, all_scores)
  else
    Except.error ("AssertionError")

/-! ### encoding_model.py: rank_accuracy name resolution -/

/-- Every name bound at module scope in encoding_model.py: the imports
(lines 1-7) and all top-level assignments and function definitions.  Neither
`cdist` nor `rankdata` appears. -/
def encodingModelGlobals : List String :=
  ["json", "np", "Ridge", "make_scorer", "GridSearchCV", "KFold", "zscore",
   "array_correlation", "read_gifti", "write_gifti", "f", "metadata",
   "n_vertices", "model_ndim", "delays", "mask", "delay_embedding",
   "load_inputs", "inputs", "split_half", "model_splits", "data_splits",
   "train_story", "test_story", "train_subject", "test_subject", "cv_fold",
   "train_model", "test_model", "train_data", "test_data",
   "correlation_scorer", "alpha", "ridge", "coefficients", "predicted_data",
   "performance", "collapse_coef", "collapse_test_model", "predicted_model",
   "rank_accuracy", "accuracy", "results", "template_fn", "grid_search",
   "alphas", "best_alphas", "best_scores", "all_scores"]

/-- The global (non-local) names `rank_accuracy`'s body reads, in first-use
evaluation order: line 188 loads `cdist` before anything else non-local
(its locals are the parameters and `n_predictions`, `correlations`, `ranks`,
`index`), then `np` (line 193), then `rankdata` (line 194). -/
def rankAccuracyGlobalReads : List String := ["cdist", "np", "rankdata"]

/-- Outcome of calling a Python function: a value, or an uncaught
`NameError` for the first global read that resolves nowhere. -/
inductive PyOutcome (α : Type) where
  | ok : α → PyOutcome α
  | nameError : String → PyOutcome α
deriving DecidableEq

/-- Name-resolution model of calling `rank_accuracy` (encoding_model.py lines
184-202): the call raises `NameError` at the first global read whose name is
bound neither locally nor at module scope; only if every global read resolves
could a value be produced (the numeric value itself is not modelled, which is
sound here because resolution never succeeds). -/
def rank_accuracy_run (predicted_model test_model : List (List ℚ))
    (mean : Bool) : PyOutcome Unit :=
  match rankAccuracyGlobalReads.find?
      (fun n => !(encodingModelGlobals.contains n)) with
  | some n => PyOutcome.nameError n
  | none => PyOutcome.ok ()

/-- Concrete 3-segment, 1-subject correlation tensor realizing the claimed
hit pattern (hits = [true, false, false]): the claim's 3x3 example scaled by
100 so every entry is an integer rational. -/
def exampleSliceTensor : List (List (List ℚ)) :=
  [[[90], [50], [30]],
   [[20], [10], [15]],
   [[95], [40], [90]]]

/-- Concrete one-story, one-subject input with matching row counts, used to
instantiate the split-half theorem. -/
def exampleSplitInputs : List (String × StoryInput) :=
  [("s", ⟨[[(1 : ℚ)], [2]], [("a", [[(3 : ℚ)], [4]])]⟩)]

theorem getD_map_lists {α β : Type} (f : List α → List β) (hf : f [] = [])
    (l : List (List α)) (i : Nat) :
    (l.map f).getD i [] = f (l.getD i []) := by
  induction l generalizing i with
  | nil => simp [hf]
  | cons h t ih =>
    cases i with
    | zero => simp
    | succ n => simpa using ih n

theorem hstack2_eq_some {α : Type} (a : List (List α)) :
    ∀ b : List (List α), a.length = b.length →
      ∃ c, hstack2 a b = some c ∧ c.length = a.length ∧
        ∀ i, c.getD i [] = a.getD i [] ++ b.getD i [] := by
  induction a with
  | nil =>
    intro b h
    cases b with
    | nil => exact ⟨[], rfl, rfl, fun i => by cases i <;> simp⟩
    | cons r2 t2 => simp at h
  | cons r1 t1 ih =>
    intro b h
    cases b with
    | nil => simp at h
    | cons r2 t2 =>
      obtain ⟨c, hc, hcl, hci⟩ := ih t2 (by simpa using h)
      refine ⟨(r1 ++ r2) :: c, by simp [hstack2, hc], by simp [hcl], fun i => ?_⟩
      cases i with
      | zero => simp
      | succ n => simpa using hci n

theorem hstackAll_eq_some {α : Type} (T : Nat) (blocks : List (List (List α)))
    (hne : blocks ≠ []) (hlen : ∀ b ∈ blocks, b.length = T) :
    ∃ H, hstackAll blocks = some H ∧ H.length = T ∧
      ∀ i, H.getD i [] = (blocks.map (fun b => b.getD i [])).flatten := by
  induction blocks with
  | nil => exact absurd rfl hne
  | cons b rest ih =>
    cases rest with
    | nil =>
      refine ⟨b, rfl, hlen b (by simp), fun i => ?_⟩
      simp
    | cons b2 rest2 =>
      obtain ⟨H, hH, hHl, hHi⟩ :=
        ih (by simp) (fun x hx => hlen x (List.mem_cons_of_mem _ hx))
      obtain ⟨c, hc, hcl, hci⟩ := hstack2_eq_some b H
        (by rw [hlen b (by simp), hHl])
      refine ⟨c, ?_, by rw [hcl]; exact hlen b (by simp), fun i => ?_⟩
      · show hstackAll (b :: b2 :: rest2) = some c
        simp only [hstackAll, hH, Option.bind_some]
        exact hc
      · rw [hci, hHi]
        simp

theorem numCols_eq {embedding : List (List ℚ)} {F : Nat}
    (hF : ∀ row ∈ embedding, row.length = F) (hne : embedding ≠ []) :
    numCols embedding = F := by
  cases embedding with
  | nil => exact absurd rfl hne
  | cons r t => exact hF r (by simp)

theorem delayedBlock_length {embedding : List (List ℚ)} {T d : Nat}
    (hT : embedding.length = T) (hd : 0 < d) (hdT : d ≤ T) :
    (delayedBlock embedding d).length = T := by
  have hd' : d ≠ 0 := Nat.pos_iff_ne_zero.mp hd
  simp [delayedBlock, sliceDropLast, hd', hT, List.length_take, Nat.min_def]
  omega

theorem delayedBlock_getD {embedding : List (List ℚ)} {T F d : Nat}
    (hT : embedding.length = T) (hF : ∀ row ∈ embedding, row.length = F)
    (hd : 0 < d) (hdT : d ≤ T) (r : Nat) (hr : r < T) :
    (delayedBlock embedding d).getD r [] =
      if r < d then List.replicate F none
      else (embedding.getD (r - d) []).map some := by
  have hne : embedding ≠ [] := by
    intro h
    subst h
    simp at hT
    omega
  have hnc : numCols embedding = F := numCols_eq hF hne
  have hd' : d ≠ 0 := Nat.pos_iff_ne_zero.mp hd
  unfold delayedBlock
  rw [List.getD_eq_getElem?_getD, List.getElem?_append]
  by_cases hrd : r < d
  · simp [hrd, List.getElem?_replicate, hnc]
  · have hle : d ≤ r := Nat.le_of_not_lt hrd
    simp only [List.length_replicate, hrd, if_false]
    rw [List.getElem?_map]
    unfold sliceDropLast
    simp only [hd', if_false]
    rw [List.getElem?_take]
    have hre : r - d < embedding.length := by omega
    rw [List.getElem?_eq_getElem hre]
    simp only [hT]
    rw [if_pos (show r - d < T - d by omega)]
    simp [List.getD_eq_getElem?_getD, List.getElem?_eq_getElem hre]

theorem spec_length (embedding : List (List ℚ)) (F : Nat) (delays : List Nat) :
    (delayEmbeddingSpec embedding F delays).length = embedding.length := by
  simp [delayEmbeddingSpec]

theorem delay_embedding_eq_spec (embedding : List (List ℚ)) (T F : Nat)
    (delays : List Nat) (hT : embedding.length = T)
    (hF : ∀ row ∈ embedding, row.length = F) (hne : delays ≠ [])
    (hpos : ∀ d ∈ delays, 0 < d) (hdT : ∀ d ∈ delays, d ≤ T) :
    delay_embedding embedding delays =
      some (delayEmbeddingSpec embedding F delays) := by
  have hblocks_ne : delays.map (fun d => delayedBlock embedding d) ≠ [] := by
    simpa using hne
  have hbl : ∀ b ∈ delays.map (fun d => delayedBlock embedding d),
      b.length = T := by
    intro b hb
    obtain ⟨d, hd, rfl⟩ := List.mem_map.mp hb
    exact delayedBlock_length hT (hpos d hd) (hdT d hd)
  obtain ⟨H, hH, hHl, hHi⟩ := hstackAll_eq_some T _ hblocks_ne hbl
  unfold delay_embedding
  rw [hH]
  simp only [Option.map_some']
  congr 1
  have hzl : (zeroNaN H).length = T := by simp [zeroNaN, hHl]
  apply List.ext_get (by rw [hzl, spec_length, hT])
  intro n h₁ h₂
  have hnT : n < T := by rwa [hzl] at h₁
  have hget1 : (zeroNaN H).get ⟨n, h₁⟩ = (zeroNaN H).getD n [] := by
    simp [List.getD_eq_getElem?_getD, List.getElem?_eq_getElem h₁]
  have hget2 : (delayEmbeddingSpec embedding F delays).get ⟨n, h₂⟩ =
      delayedRowSpec embedding F delays n := by
    simp [delayEmbeddingSpec]
  rw [hget1, hget2]
  have hz : (zeroNaN H).getD n [] =
      (H.getD n []).map (fun x => x.getD 0) := by
    exact getD_map_lists _ rfl H n
  rw [hz, hHi n, List.map_flatten, List.map_map, List.map_map]
  unfold delayedRowSpec
  congr 1
  apply List.map_congr_left
  intro d hd
  have hb := delayedBlock_getD hT hF (hpos d hd) (hdT d hd) n hnT
  simp only [List.getD_eq_getElem?_getD] at hb ⊢
  simp only [Function.comp_apply, List.getD_eq_getElem?_getD]
  rw [hb]
  by_cases hrd : n < d
  · simp only [if_pos hrd, List.map_replicate, Option.getD_none]
  · simp only [if_neg hrd]
    rw [List.map_map]
    have hcomp : ((fun x : Option ℚ => x.getD 0) ∘ some) = id := funext (fun x => rfl)
    rw [hcomp, List.map_id]

theorem getD_map_of_lt {α β : Type} (l : List α) (f : α → β) (i : Nat)
    (dflt : β) (hi : i < l.length) :
    (l.map f).getD i dflt = f l[i] := by
  rw [List.getD_eq_getElem?_getD, List.getElem?_map,
    List.getElem?_eq_getElem hi]
  rfl

theorem sum_map_const {α : Type} (l : List α) (F : Nat) :
    (l.map (fun _ => F)).sum = F * l.length := by
  induction l with
  | nil => simp
  | cons x xs ih =>
    simp only [List.map_cons, List.sum_cons, ih, List.length_cons]
    ring

theorem delayedRowSpec_length (embedding : List (List ℚ)) (F : Nat)
    (delays : List Nat) (r : Nat) (hr : r < embedding.length)
    (hF : ∀ row ∈ embedding, row.length = F) :
    (delayedRowSpec embedding F delays r).length = F * delays.length := by
  unfold delayedRowSpec
  rw [List.length_flatten, List.map_map]
  have hmc : delays.map (List.length ∘ fun d =>
      if r < d then List.replicate F (0 : ℚ) else embedding.getD (r - d) []) =
      delays.map (fun _ => F) := by
    apply List.map_congr_left
    intro d _
    by_cases hrd : r < d
    · simp [hrd]
    · have hlt : r - d < embedding.length := by omega
      simp only [Function.comp_apply, if_neg hrd]
      rw [List.getD_eq_getElem?_getD, List.getElem?_eq_getElem hlt]
      exact hF _ (List.getElem_mem hlt)
  rw [hmc]
  exact sum_map_const delays F

theorem flatten_getD_blocks (F c : Nat) (hc : c < F) (L : List (List ℚ)) :
    ∀ i, (∀ x ∈ L, x.length = F) → i < L.length →
      L.flatten.getD (i * F + c) 0 = (L.getD i []).getD c 0 := by
  induction L with
  | nil =>
    intro i _ hi
    simp at hi
  | cons x xs ih =>
    intro i hL hi
    have hx : x.length = F := hL x (by simp)
    cases i with
    | zero =>
      simp only [List.flatten_cons, Nat.zero_mul, Nat.zero_add,
        List.getD_cons_zero]
      rw [List.getD_eq_getElem?_getD, List.getElem?_append,
        if_pos (by omega : c < x.length), ← List.getD_eq_getElem?_getD]
    | succ n =>
      have h1 : ¬ ((n + 1) * F + c < x.length) := by
        rw [hx, Nat.succ_mul]
        omega
      have h2 : (n + 1) * F + c - x.length = n * F + c := by
        rw [hx, Nat.succ_mul]
        omega
      simp only [List.flatten_cons, List.getD_cons_succ]
      rw [List.getD_eq_getElem?_getD, List.getElem?_append, if_neg h1, h2,
        ← List.getD_eq_getElem?_getD]
      exact ih n (fun y hy => hL y (by simp [hy])) (by simpa using hi)

/-- Claim C3: for every (T, F) embedding and nonempty ordered list of positive
delays each at most T, with `zscore_features = False`, `delay_embedding`
returns exactly the spec matrix: T rows of length F*k, the column-wise
concatenation in delay order of blocks whose first d rows are zero and whose
row r (r >= d) is the input's row r - d. -/
theorem C3_delay_embedding_blocks (embedding : List (List ℚ)) (T F : Nat)
    (delays : List Nat) (hT : embedding.length = T)
    (hF : ∀ row ∈ embedding, row.length = F) (hne : delays ≠ [])
    (hpos : ∀ d ∈ delays, 0 < d) (hdT : ∀ d ∈ delays, d ≤ T) :
    delay_embedding embedding delays =
      some (delayEmbeddingSpec embedding F delays) ∧
    (delayEmbeddingSpec embedding F delays).length = T ∧
    (∀ row ∈ delayEmbeddingSpec embedding F delays,
      row.length = F * delays.length) ∧
    (∀ r i c, r < T → i < delays.length → c < F →
      ((delayEmbeddingSpec embedding F delays).getD r []).getD (i * F + c) 0 =
        if r < delays.getD i 0 then 0
        else (embedding.getD (r - delays.getD i 0) []).getD c 0) := by
  subst hT
  refine ⟨delay_embedding_eq_spec embedding _ F delays rfl hF hne hpos hdT,
    spec_length embedding F delays, ?_, ?_⟩
  · intro row hrow
    obtain ⟨r, hr, rfl⟩ := List.mem_map.mp hrow
    exact delayedRowSpec_length embedding F delays r (List.mem_range.mp hr) hF
  · intro r i c hrT hik hcF
    have hrow : (delayEmbeddingSpec embedding F delays).getD r [] =
        delayedRowSpec embedding F delays r := by
      unfold delayEmbeddingSpec
      rw [getD_map_of_lt _ _ r [] (by simpa using hrT)]
      congr 1
      simp
    rw [hrow]
    have hgi : delays.getD i 0 = delays[i] := by
      rw [List.getD_eq_getElem?_getD, List.getElem?_eq_getElem hik]
      rfl
    have hLlen : ∀ x ∈ delays.map (fun d =>
        if r < d then List.replicate F (0 : ℚ) else embedding.getD (r - d) []),
        x.length = F := by
      intro x hx
      obtain ⟨d, _, rfl⟩ := List.mem_map.mp hx
      by_cases hrd : r < d
      · simp [hrd]
      · have hlt : r - d < embedding.length := by omega
        simp only [if_neg hrd]
        rw [List.getD_eq_getElem?_getD, List.getElem?_eq_getElem hlt]
        exact hF _ (List.getElem_mem hlt)
    unfold delayedRowSpec
    rw [flatten_getD_blocks F c hcF _ i hLlen (by simpa using hik)]
    rw [getD_map_of_lt _ _ i [] (by simpa using hik), hgi]
    by_cases hrd : r < delays[i]
    · rw [if_pos hrd, if_pos hrd, List.getD_eq_getElem?_getD,
        List.getElem?_replicate, if_pos hcF]
      rfl
    · rw [if_neg hrd, if_neg hrd]

/-- Witness for C3 at the 3x1 embedding [[1], [2], [3]] with delays [1, 2]. -/
theorem C3_delay_embedding_blocks_witness :
    delay_embedding [[(1 : ℚ)], [2], [3]] [1, 2] =
      some (delayEmbeddingSpec [[(1 : ℚ)], [2], [3]] 1 [1, 2]) :=
  (C3_delay_embedding_blocks [[(1 : ℚ)], [2], [3]] 3 1 [1, 2] rfl (by decide)
    (by decide) (by decide) (by decide)).1

/-- Counterexample to claim C4 as stated: for the 1-row embedding [[1]] and
delay 2 >= T = 1, `delay_embedding` succeeds but the (single) block has 2
rows, not T = 1 rows. -/
theorem C4_counterexample :
    delay_embedding [[(1 : ℚ)]] [2] = some [[0], [0]] ∧
    Option.map List.length (delay_embedding [[(1 : ℚ)]] [2]) = some 2 ∧
    ([[(1 : ℚ)]] : List (List ℚ)).length = 1 ∧ (2 : Nat) ≠ 1 := by
  refine ⟨by rfl, by rfl, by rfl, by decide⟩

/-- Claim C4 amended: for an embedding with T >= 1 rows and the single-delay
list [d] with d >= T, `delay_embedding` returns without error an all-zero
matrix with max T d rows (so T rows exactly when d = T). -/
theorem C4_amended_singleton (embedding : List (List ℚ)) (T F d : Nat)
    (hT : embedding.length = T) (hF : ∀ row ∈ embedding, row.length = F)
    (hT1 : 1 ≤ T) (hd : T ≤ d) :
    delay_embedding embedding [d] =
      some (List.replicate (max T d) (List.replicate F 0)) := by
  have hne : embedding ≠ [] := by
    intro h
    subst h
    simp at hT
    omega
  have hnc : numCols embedding = F := numCols_eq hF hne
  have hd0 : d ≠ 0 := by omega
  have hmax : max T d = d := Nat.max_eq_right hd
  have htake : embedding.take (embedding.length - d) = [] := by
    rw [hT]
    rw [show T - d = 0 by omega]
    exact List.take_zero embedding
  unfold delay_embedding
  simp only [List.map_cons, List.map_nil, hstackAll]
  unfold delayedBlock sliceDropLast
  rw [if_neg hd0, htake]
  simp [zeroNaN, hnc, hmax, List.map_replicate]

/-- Witness for the amended C4 at embedding [[5]] (T = 1) with delay 3. -/
theorem C4_amended_singleton_witness :
    delay_embedding [[(5 : ℚ)]] [3] =
      some (List.replicate (max 1 3) (List.replicate 1 0)) :=
  C4_amended_singleton [[(5 : ℚ)]] 1 1 3 rfl (by decide) (by decide) (by decide)

theorem map_range_const {β : Type} (n : Nat) (c : β) :
    (List.range n).map (fun _ => c) = List.replicate n c := by
  induction n with
  | zero => simp
  | succ m ih => rw [List.range_succ, List.map_append, ih, List.replicate_succ']; rfl

theorem splitSizes_dvd (len n : Nat) (h : len % n = 0) :
    splitSizes len n = List.replicate n (len / n) := by
  unfold splitSizes
  rw [h]
  have hc : ∀ i ∈ List.range n,
      (if i < 0 then len / n + 1 else len / n) = len / n := by
    intro i _
    simp
  rw [List.map_congr_left hc, map_range_const]

theorem takeChunks_replicate {α : Type} (c : Nat) :
    ∀ (n : Nat) (xs : List α),
      takeChunks (List.replicate n c) xs =
        (List.range n).map (fun i => (xs.drop (i * c)).take c) := by
  intro n
  induction n with
  | zero =>
    intro xs
    simp [takeChunks]
  | succ m ih =>
    intro xs
    rw [List.replicate_succ]
    show xs.take c :: takeChunks (List.replicate m c) (xs.drop c) = _
    rw [ih (xs.drop c), List.range_succ_eq_map]
    simp only [List.map_cons, Nat.zero_mul, List.drop_zero, List.map_map]
    congr 1
    apply List.map_congr_left
    intro i _
    simp only [Function.comp_apply]
    rw [List.drop_drop]
    congr 2
    rw [Nat.succ_mul]
    omega

theorem array_split_dvd {α : Type} (xs : List α) (n : Nat)
    (h : xs.length % n = 0) :
    array_split xs n =
      (List.range n).map
        (fun i => (xs.drop (i * (xs.length / n))).take (xs.length / n)) := by
  unfold array_split
  rw [splitSizes_dvd _ _ h, takeChunks_replicate]

/-- Claim C5: with n = T / L >= 1 segments, `time_segmentation` succeeds and
produces exactly n segments; the trailing T % n rows are trimmed (none when
T % n = 0) and the remaining rows split into n contiguous equal-length
chunks, each flattened (default) or column-averaged (average = true). -/
theorem C5_time_segmentation (data : List (List ℚ)) (T L : Nat) (average : Bool)
    (hT : data.length = T) (hn : 1 ≤ T / L) :
    ∃ segs, time_segmentation data L average = some segs ∧
      segs.length = T / L ∧
      segs = (List.range (T / L)).map (fun i =>
        (if average then np_mean_axis0 else List.flatten)
          ((data.drop (i * ((T - T % (T / L)) / (T / L)))).take
            ((T - T % (T / L)) / (T / L)))) := by
  subst hT
  set n := data.length / L with hn_def
  have hn0 : n ≠ 0 := by omega
  have hdm := Nat.div_add_mod data.length n
  by_cases hm : data.length % n = 0
  · have harr := array_split_dvd data n hm
    have hc : data.length / n = (data.length - data.length % n) / n := by
      rw [hm, Nat.sub_zero]
    refine ⟨(array_split data n).map
        (if average then np_mean_axis0 else List.flatten), ?_, ?_, ?_⟩
    · unfold time_segmentation
      rw [if_neg hn0, if_pos hm]
      cases average <;> simp
    · rw [harr]
      simp
    · rw [harr, List.map_map]
      apply List.map_congr_left
      intro i _
      simp only [Function.comp_apply]
      rw [← hc]
  · have hxs : (sliceDropLast data (data.length % n)).length =
        data.length - data.length % n := by
      unfold sliceDropLast
      rw [if_neg hm, List.length_take]
      simp [Nat.min_def]
    have hdvd : (data.length - data.length % n) % n = 0 := by
      have : data.length - data.length % n = n * (data.length / n) := by omega
      rw [this]
      simp [Nat.mul_mod_right]
    have harr := array_split_dvd (sliceDropLast data (data.length % n)) n
      (by rw [hxs]; exact hdvd)
    have hcs : (sliceDropLast data (data.length % n)).length / n =
        (data.length - data.length % n) / n := by rw [hxs]
    set c := (data.length - data.length % n) / n with hc_def
    have hcn : c * n = data.length - data.length % n :=
      Nat.div_mul_cancel (Nat.dvd_of_mod_eq_zero hdvd)
    refine ⟨(array_split (sliceDropLast data (data.length % n)) n).map
        (if average then np_mean_axis0 else List.flatten), ?_, ?_, ?_⟩
    · unfold time_segmentation
      rw [if_neg hn0, if_neg hm]
      cases average <;> simp
    · rw [harr]
      simp
    · rw [harr, List.map_map]
      apply List.map_congr_left
      intro i hi
      have hiN : i < n := List.mem_range.mp hi
      simp only [Function.comp_apply]
      rw [hcs]
      have hle : i * c + c ≤ data.length - data.length % n := by
        calc i * c + c = (i + 1) * c := by ring
        _ ≤ n * c := Nat.mul_le_mul_right c hiN
        _ = c * n := Nat.mul_comm n c
        _ = data.length - data.length % n := hcn
      unfold sliceDropLast
      rw [if_neg hm, List.drop_take, List.take_take]
      have hmineq : c ⊓ (data.length - data.length % n - i * c) = c :=
        Nat.min_eq_left (by omega)
      rw [hmineq]

/-- Witness for C5 at T = 23, L = 5: four segments after discarding the three
trailing rows. -/
theorem C5_time_segmentation_witness :
    ∃ segs, time_segmentation ((List.range 23).map (fun i => [(i : ℚ)])) 5 false
        = some segs ∧
      segs.length = 23 / 5 ∧
      segs = (List.range (23 / 5)).map (fun i =>
        (if false then np_mean_axis0 else List.flatten)
          ((((List.range 23).map (fun i => [(i : ℚ)])).drop
              (i * ((23 - 23 % (23 / 5)) / (23 / 5)))).take
            ((23 - 23 % (23 / 5)) / (23 / 5)))) :=
  C5_time_segmentation ((List.range 23).map (fun i => [(i : ℚ)])) 23 5 false
    (by decide) (by decide)

theorem foldl_max_lt_iff (z : ℚ) :
    ∀ (xs : List ℚ) (x : ℚ), xs.foldl max x < z ↔ x < z ∧ ∀ y ∈ xs, y < z := by
  intro xs
  induction xs with
  | nil => intro x; simp
  | cons h t ih =>
    intro x
    rw [List.foldl_cons, ih (max x h)]
    constructor
    · rintro ⟨hmax, hall⟩
      rw [max_lt_iff] at hmax
      exact ⟨hmax.1, fun y hy => by
        rcases List.mem_cons.mp hy with rfl | hyt
        · exact hmax.2
        · exact hall y hyt⟩
    · rintro ⟨hx, hall⟩
      refine ⟨max_lt_iff.mpr ⟨hx, hall h (by simp)⟩, fun y hy => hall y (by simp [hy])⟩

theorem np_amax_lt_iff (l : List ℚ) (z : ℚ) (hne : l ≠ []) (m : ℚ)
    (hm : np_amax l = some m) : m < z ↔ ∀ y ∈ l, y < z := by
  cases l with
  | nil => exact absurd rfl hne
  | cons x xs =>
    simp only [np_amax, Option.some_inj] at hm
    subst hm
    rw [foldl_max_lt_iff z xs x]
    constructor
    · rintro ⟨hx, hall⟩ y hy
      rcases List.mem_cons.mp hy with rfl | hyt
      · exact hx
      · exact hall y hyt
    · intro hall
      exact ⟨hall x (by simp), fun y hy => hall y (by simp [hy])⟩

theorem optionMapM_eq_some {α β : Type} (f : α → Option β) (g : α → β)
    (l : List α) (h : ∀ x ∈ l, f x = some (g x)) :
    optionMapM f l = some (l.map g) := by
  induction l with
  | nil => rfl
  | cons x xs ih =>
    simp only [optionMapM, h x (by simp), List.map_cons,
      ih (fun y hy => h y (by simp [hy])), Option.bind_some]
    rfl

theorem optionMapM_map {α β γ : Type} (f : β → Option γ) (g : α → β)
    (l : List α) :
    optionMapM f (l.map g) = optionMapM (fun x => f (g x)) l := by
  induction l with
  | nil => rfl
  | cons x xs ih => simp only [List.map_cons, optionMapM, ih]

theorem count_true_map_decide {α : Type} (p : α → Bool) (l : List α) :
    ((l.map p).count true : Nat) = (l.filter p).length := by
  induction l with
  | nil => rfl
  | cons x xs ih =>
    simp only [List.map_cons, List.count_cons, List.filter_cons, ih]
    cases hx : p x <;> simp [hx]

theorem getD_eq_getElem_of_lt {α : Type} (l : List α) (i : Nat) (d : α)
    (h : i < l.length) : l.getD i d = l[i] := by
  rw [List.getD_eq_getElem?_getD, List.getElem?_eq_getElem h]
  rfl

theorem hitsOfSlice_spec (t : List (List (List ℚ))) (n s : Nat)
    (hn : 2 ≤ n) (hT : t.length = n)
    (hrow : ∀ row ∈ t, row.length = n) :
    hitsOfSlice (t.map (fun row => row.map (fun e => e.getD s 0))) =
      some ((List.range n).map (strictRowHit t n s)) := by
  have hlen : (t.map (fun row => row.map (fun e => e.getD s 0))).length = n := by
    simpa using hT
  unfold hitsOfSlice
  rw [hlen]
  apply optionMapM_eq_some
  intro i hi
  unfold strictRowHit
  have hiN : i < n := List.mem_range.mp hi
  have hrowD : (t.map (fun row => row.map (fun e => e.getD s 0))).getD i [] =
      (t.getD i []).map (fun e => e.getD s 0) :=
    getD_map_lists _ rfl t i
  have hitl : i < t.length := by omega
  have hti : t.getD i [] = t[i] := by
    rw [List.getD_eq_getElem?_getD, List.getElem?_eq_getElem hitl]
    rfl
  have hrlen : (t.getD i []).length = n := by
    rw [hti]
    exact hrow _ (List.getElem_mem hitl)
  have hconv : ∀ j, j < n →
      ((t.getD i []).map (fun e => e.getD s 0)).getD j 0 = tEntry t i j s := by
    intro j hj
    have hjl : j < (t.getD i []).length := by omega
    rw [getD_map_of_lt _ _ j 0 hjl]
    unfold tEntry
    congr 1
    exact (getD_eq_getElem_of_lt _ j [] hjl).symm
  simp only [hrowD]
  have hrowlen : ((t.getD i []).map (fun e => e.getD s 0)).length = n := by
    simpa using hrlen
  rw [hrowlen]
  have hne : (((List.range n).filter (fun off => off ≠ i)).map
      (fun off => ((t.getD i []).map (fun e => e.getD s 0)).getD off 0)) ≠ [] := by
    have hj : (if i = 0 then 1 else 0) ∈
        (List.range n).filter (fun off => off ≠ i) := by
      rw [List.mem_filter]
      refine ⟨List.mem_range.mpr (by split <;> omega), ?_⟩
      split <;> simp <;> omega
    exact List.ne_nil_of_mem (List.mem_map_of_mem _ hj)
  obtain ⟨m, hm⟩ : ∃ m, np_amax (((List.range n).filter (fun off => off ≠ i)).map
      (fun off => ((t.getD i []).map (fun e => e.getD s 0)).getD off 0)) = some m := by
    cases hoffs : (((List.range n).filter (fun off => off ≠ i)).map
        (fun off => ((t.getD i []).map (fun e => e.getD s 0)).getD off 0)) with
    | nil => exact absurd hoffs hne
    | cons a as => exact ⟨as.foldl max a, rfl⟩
  rw [hm]
  simp only [Option.map_some']
  congr 1
  rw [decide_eq_decide]
  have hiff := np_amax_lt_iff _
      (((t.getD i []).map (fun e => e.getD s 0)).getD i 0) hne m hm
  rw [gt_iff_lt, hiff]
  constructor
  · intro hall j hj hji
    have hymem : ((t.getD i []).map (fun e => e.getD s 0)).getD j 0 ∈
        (((List.range n).filter (fun off => off ≠ i)).map
          (fun off => ((t.getD i []).map (fun e => e.getD s 0)).getD off 0)) := by
      apply List.mem_map_of_mem
      rw [List.mem_filter]
      exact ⟨List.mem_range.mpr hj, by simpa using hji⟩
    have := hall _ hymem
    rwa [hconv j hj, hconv i hiN] at this
  · intro hall y hy
    obtain ⟨j, hjf, rfl⟩ := List.mem_map.mp hy
    rw [List.mem_filter] at hjf
    have hj : j < n := List.mem_range.mp hjf.1
    have hji : j ≠ i := by simpa using hjf.2
    rw [hconv j hj, hconv i hiN]
    exact hall j hj hji

/-- Claim C6: for an (n, n, S) correlation tensor with n >= 2,
`correlation_classification` returns chance 1 / n and one accuracy per
subject, where subject s's accuracy is (number of segments i whose diagonal
entry strictly exceeds every off-diagonal entry of row i — ties are not
hits) divided by n. -/
theorem C6_correlation_classification (t : List (List (List ℚ))) (n S : Nat)
    (hn : 2 ≤ n) (hT : t.length = n)
    (hrow : ∀ row ∈ t, row.length = n)
    (hent : ∀ row ∈ t, ∀ e ∈ row, e.length = S) :
    ∃ accs, correlation_classification t = some (accs, 1 / (n : ℚ)) ∧
      accs.length = S ∧
      ∀ s, s < S →
        accs.getD s 0 =
          (((List.range n).filter (strictRowHit t n s)).length : ℚ) / (n : ℚ) := by
  have hS : ((t.headD []).headD []).length = S := by
    cases t with
    | nil =>
      simp at hT
      omega
    | cons r rest =>
      have hr : r.length = n := hrow r (by simp)
      cases r with
      | nil =>
        simp at hr
        omega
      | cons e es =>
        simp only [List.headD_cons]
        exact hent (e :: es) (by simp) e (by simp)
  refine ⟨(List.range S).map (fun s =>
      ((((List.range n).filter (strictRowHit t n s)).length : ℚ) / (n : ℚ))),
    ?_, by simp, ?_⟩
  · unfold correlation_classification moveaxis20
    rw [hS, hT, optionMapM_map]
    rw [optionMapM_eq_some _ (fun s =>
        ((((List.range n).filter (strictRowHit t n s)).length : ℚ) / (n : ℚ)))]
    · rfl
    · intro s hs
      rw [hitsOfSlice_spec t n s hn hT hrow]
      simp only [Option.map_some']
      congr 1
      rw [count_true_map_decide]
  · intro s hs
    rw [getD_map_of_lt _ _ s 0 (by simpa using hs)]
    congr 2
    simp

/-- Witness for C6 on the claim's 3x3 single-subject example (scaled to
integers): hits [true, false, false], accuracy 1/3, chance 1/3. -/
theorem C6_correlation_classification_witness :
    (∃ accs, correlation_classification exampleSliceTensor =
        some (accs, 1 / ((3 : Nat) : ℚ)) ∧
      accs.length = 1 ∧
      ∀ s, s < 1 →
        accs.getD s 0 =
          (((List.range 3).filter
              (strictRowHit exampleSliceTensor 3 s)).length : ℚ) /
            ((3 : Nat) : ℚ)) ∧
    correlation_classification exampleSliceTensor = some ([1 / 3], 1 / 3) :=
  ⟨C6_correlation_classification exampleSliceTensor 3 1 (by decide) (by decide)
    (by decide) (by decide), by rfl⟩

/-- Claim C1 (code_bug evidence): re-running over a cache that already holds a
leaf value [0] at key (s, r, p, h), the time-segment-classification loop
leaves the cache untouched (the guard encloses the computation), but the ISC
loop recomputes and overwrites the leaf with the freshly computed [1] — its
computation sits outside the `if hemi not in results...` guard. -/
theorem C1_cache_loops :
    ts_classification_loop (fun _ _ _ _ => [1]) ["s"] ["r"] [("p", "q")] ["h"]
        [("s", [("r", [("p", [("h", Leaf.val [0])])])])] =
      [("s", [("r", [("p", [("h", Leaf.val [0])])])])] ∧
    cacheLeaf [("s", [("r", [("p", [("h", Leaf.val [0])])])])] ("s") ("r") ("p") ("h") =
      some (Leaf.val [0]) ∧
    cacheLeaf (isc_loop (fun _ _ _ _ => [1]) ["s"] ["r"] [("p", "q")] ["h"]
        [("s", [("r", [("p", [("h", Leaf.val [0])])])])]) ("s") ("r") ("p") ("h") =
      some (Leaf.val [1]) ∧
    Leaf.val [1] ≠ Leaf.val [0] :=
  ⟨by rfl, by rfl, by rfl, by decide⟩

/-- Claim C2 (code_bug evidence): `grid_search` sets
`n_voxels = train_model.shape[1]` (here 4) instead of `train_data.shape[1]`
(here 2), so running on a `train_data` restricted to a voxel subset indexes
`train_data[:, voxel]` out of bounds and raises `IndexError` — exactly what
the module-level call `grid_search(train_model, train_data[:, :100], ...)`
does with its 1200-column train_model. -/
theorem C2_grid_search_out_of_bounds :
    numCols [[(1 : ℚ), 2, 3, 4]] = 4 ∧
    numCols [[(5 : ℚ), 6]] = 2 ∧
    grid_search (fun _ => ⟨1, 0, [[0]]⟩) [[(1 : ℚ), 2, 3, 4]] [[(5 : ℚ), 6]] =
      Except.error ("IndexError: index out of bounds") :=
  ⟨rfl, rfl, by rfl⟩

/-- Claim C7 (code_bug evidence): any concrete call of `rank_accuracy`
raises `NameError` for `cdist` instead of returning a rank accuracy, because
encoding_model.py never imports or defines `cdist`/`rankdata`. -/
theorem C7_rank_accuracy_call_nameError :
    rank_accuracy_run [[(1 : ℚ), 0], [0, 1]] [[(1 : ℚ), 0], [0, 1]] true =
      PyOutcome.nameError ("cdist") := by rfl

/-- Claim C10: for every pair of input matrices (and either `mean` flag),
calling `rank_accuracy` fails with `NameError` on `cdist` rather than
returning a value: `cdist` and `rankdata` are bound neither among the
function's locals nor anywhere at module scope in encoding_model.py. -/
theorem C10_rank_accuracy_nameError :
    (∀ (predicted_model test_model : List (List ℚ)) (mean : Bool),
      rank_accuracy_run predicted_model test_model mean =
        PyOutcome.nameError ("cdist")) ∧
    "cdist" ∉ encodingModelGlobals ∧ "rankdata" ∉ encodingModelGlobals :=
  ⟨fun _ _ _ => rfl, by decide, by decide⟩

theorem exceptMapM_eq_ok {α β : Type} (f : α → Except String β) (g : α → β)
    (l : List α) (h : ∀ x ∈ l, f x = Except.ok (g x)) :
    exceptMapM f l = Except.ok (l.map g) := by
  induction l with
  | nil => rfl
  | cons x xs ih =>
    simp only [exceptMapM, h x (by simp), List.map_cons,
      ih (fun y hy => h y (by simp [hy]))]

theorem exceptMapM_ok_iff {α β : Type} (f : α → Except String β) (l : List α) :
    (∃ ys, exceptMapM f l = Except.ok ys) ↔ ∀ x ∈ l, ∃ y, f x = Except.ok y := by
  induction l with
  | nil =>
    simp only [exceptMapM]
    constructor
    · intro _ x hx
      simp at hx
    · intro _
      exact ⟨[], rfl⟩
  | cons x xs ih =>
    constructor
    · rintro ⟨ys, hys⟩
      cases hfx : f x with
      | error e =>
        rw [exceptMapM, hfx] at hys
        simp at hys
      | ok y =>
        cases hrest : exceptMapM f xs with
        | error e =>
          rw [exceptMapM, hfx, hrest] at hys
          simp at hys
        | ok zs =>
          intro z hz
          rcases List.mem_cons.mp hz with rfl | hz'
          · exact ⟨y, hfx⟩
          · exact (ih.mp ⟨zs, hrest⟩) z hz'
    · intro hall
      obtain ⟨y, hy⟩ := hall x (by simp)
      obtain ⟨ys, hys⟩ := ih.mpr (fun z hz => hall z (by simp [hz]))
      refine ⟨y :: ys, ?_⟩
      rw [exceptMapM, hy, hys]

theorem except_error_iff_not_ok {β : Type} (x : Except String β) :
    (∃ e, x = Except.error e) ↔ ¬ ∃ y, x = Except.ok y := by
  cases x with
  | error e => simp
  | ok y => simp

theorem loadSubject_ok_iff (mask : Option (List Bool)) (m : StoryMeta)
    (story : String) (modelLen : Nat) (sd : String × List (List ℚ)) :
    (∃ y, loadSubject mask m story modelLen sd = Except.ok y) ↔
      modelLen = (pyTrim sd.2 m.data_trims).length := by
  unfold loadSubject
  by_cases h : modelLen = (pyTrim sd.2 m.data_trims).length
  · simp [h]
  · simp [h]

theorem loadStory_ok_iff (mask : Option (List Bool)) (sm : String × StoryMeta)
    (h5 : 5 ≤ (pyTrim sm.2.model sm.2.model_trims).length)
    (hwf : ∀ row ∈ sm.2.model, row.length = numCols sm.2.model) :
    (∃ y, loadStory mask sm = Except.ok y) ↔
      ∀ sd ∈ sm.2.data,
        (pyTrim sd.2 sm.2.data_trims).length =
          (pyTrim sm.2.model sm.2.model_trims).length := by
  have hFtr : ∀ row ∈ pyTrim sm.2.model sm.2.model_trims,
      row.length = numCols sm.2.model := by
    intro row hrow
    apply hwf
    unfold pyTrim at hrow
    by_cases h0 : sm.2.model_trims.2 = 0
    · rw [if_pos h0] at hrow
      exact List.mem_of_mem_drop hrow
    · rw [if_neg h0] at hrow
      exact List.mem_of_mem_take (List.mem_of_mem_drop hrow)
  have hde := delay_embedding_eq_spec (pyTrim sm.2.model sm.2.model_trims)
      (pyTrim sm.2.model sm.2.model_trims).length (numCols sm.2.model)
      [2, 3, 4, 5] rfl hFtr (by decide)
      (by
        intro d hd
        simp at hd
        omega)
      (by
        intro d hd
        simp at hd
        omega)
  have hmlen : (delayEmbeddingSpec (pyTrim sm.2.model sm.2.model_trims)
      (numCols sm.2.model) [2, 3, 4, 5]).length =
      (pyTrim sm.2.model sm.2.model_trims).length :=
    spec_length _ _ _
  have heq : loadStory mask sm =
      match exceptMapM (loadSubject mask sm.2 sm.1
          (delayEmbeddingSpec (pyTrim sm.2.model sm.2.model_trims)
            (numCols sm.2.model) [2, 3, 4, 5]).length) sm.2.data with
      | Except.error e => Except.error e
      | Except.ok dataOut =>
        Except.ok (sm.1,
          (delayEmbeddingSpec (pyTrim sm.2.model sm.2.model_trims)
            (numCols sm.2.model) [2, 3, 4, 5], dataOut)) := by
    unfold loadStory
    rw [hde]
  rw [heq]
  cases hmm : exceptMapM (loadSubject mask sm.2 sm.1
      (delayEmbeddingSpec (pyTrim sm.2.model sm.2.model_trims)
        (numCols sm.2.model) [2, 3, 4, 5]).length) sm.2.data with
  | error e =>
    constructor
    · rintro ⟨y, hy⟩
      simp at hy
    · intro hall
      exfalso
      have hok : ∀ sd ∈ sm.2.data, ∃ y,
          loadSubject mask sm.2 sm.1
            (delayEmbeddingSpec (pyTrim sm.2.model sm.2.model_trims)
              (numCols sm.2.model) [2, 3, 4, 5]).length sd = Except.ok y := by
        intro sd hsd
        rw [loadSubject_ok_iff, hmlen]
        exact (hall sd hsd).symm
      obtain ⟨ys, hys⟩ := (exceptMapM_ok_iff _ _).mpr hok
      rw [hys] at hmm
      cases hmm
  | ok dataOut =>
    constructor
    · intro _ sd hsd
      have hall := (exceptMapM_ok_iff _ _).mp ⟨dataOut, hmm⟩ sd hsd
      have h2 := (loadSubject_ok_iff mask sm.2 sm.1 _ sd).mp hall
      rw [hmlen] at h2
      omega
    · intro _
      exact ⟨(sm.1,
        (delayEmbeddingSpec (pyTrim sm.2.model sm.2.model_trims)
          (numCols sm.2.model) [2, 3, 4, 5], dataOut)), by simp⟩

/-- Claim C8: with every referenced file readable (the metadata carries the
file contents) and each trimmed embedding long enough for the fixed delays
[2, 3, 4, 5], `load_inputs` raises an error if and only if some story has a
subject whose trimmed surface data row count differs from the trimmed (hence
delayed) model's row count; the `Except` result is all-or-nothing, so a
failure surfaces immediately with no partial recovery. -/
theorem C8_load_inputs_error_iff (metadata : List (String × StoryMeta))
    (mask : Option (List Bool))
    (h5 : ∀ sm ∈ metadata, 5 ≤ (pyTrim sm.2.model sm.2.model_trims).length)
    (hwf : ∀ sm ∈ metadata, ∀ row ∈ sm.2.model,
      row.length = numCols sm.2.model) :
    (∃ e, load_inputs metadata mask = Except.error e) ↔
      ∃ sm ∈ metadata, ∃ sd ∈ sm.2.data,
        (pyTrim sd.2 sm.2.data_trims).length ≠
          (pyTrim sm.2.model sm.2.model_trims).length := by
  rw [except_error_iff_not_ok]
  unfold load_inputs
  rw [exceptMapM_ok_iff]
  constructor
  · intro hnot
    by_contra hno
    push_neg at hno
    apply hnot
    intro sm hsm
    rw [loadStory_ok_iff mask sm (h5 sm hsm) (hwf sm hsm)]
    intro sd hsd
    exact hno sm hsm sd hsd
  · rintro ⟨sm, hsm, sd, hsd, hne⟩ hok
    have := (loadStory_ok_iff mask sm (h5 sm hsm) (hwf sm hsm)).mp
      (hok sm hsm) sd hsd
    exact hne this

/-- Witness for C8: a 6-row model trimmed to 5 rows against a 4-row subject
produces an error. -/
theorem C8_load_inputs_error_iff_witness :
    ∃ e, load_inputs
        [("st", ⟨[[(0 : ℚ)], [1], [2], [3], [4], [5]], (0, 1), (0, 0),
          [("a", [[(9 : ℚ)], [9], [9], [9]])]⟩)] none = Except.error e :=
  (C8_load_inputs_error_iff
      [("st", ⟨[[(0 : ℚ)], [1], [2], [3], [4], [5]], (0, 1), (0, 0),
        [("a", [[(9 : ℚ)], [9], [9], [9]])]⟩)] none
      (by decide) (by decide)).mpr
    ⟨("st", ⟨[[(0 : ℚ)], [1], [2], [3], [4], [5]], (0, 1), (0, 0),
        [("a", [[(9 : ℚ)], [9], [9], [9]])]⟩), by decide,
      ("a", [[(9 : ℚ)], [9], [9], [9]]), by decide, by decide⟩

theorem splitSubject_ok (zs : List (List ℚ) → List (List ℚ)) (zd : Bool)
    (modelLen midpoint : Nat) (sd : String × List (List ℚ))
    (h : sd.2.length = modelLen) :
    splitSubject zs zd modelLen midpoint sd =
      Except.ok (sd.1, dataSplitSpec zs zd midpoint sd.2) := by
  unfold splitSubject dataSplitSpec
  rw [if_pos h]

theorem splitStory_ok (zs : List (List ℚ) → List (List ℚ)) (zd zm : Bool)
    (si : String × StoryInput)
    (hlen : ∀ sd ∈ si.2.data, sd.2.length = si.2.model.length) :
    splitStory zs zd zm si = Except.ok
      ((si.1, modelSplitSpec zs zm si.2.model),
       (si.1, si.2.data.map (fun sd =>
         (sd.1, dataSplitSpec zs zd (si.2.model.length / 2) sd.2)))) := by
  unfold splitStory
  rw [exceptMapM_eq_ok _
    (fun sd => (sd.1, dataSplitSpec zs zd (si.2.model.length / 2) sd.2)) _
    (fun sd hsd => splitSubject_ok zs zd _ _ sd (hlen sd hsd))]
  rfl

/-- Claim C9: when every subject's row count matches its story's model,
`split_half` succeeds and returns, per story, exactly the two mirror-image
orderings [(A, B), (B, A)] of the halves cut at midpoint = rows / 2 (first
half = rows 0..midpoint-1, second = midpoint..end), with any requested
z-scoring applied to each half independently; the halves concatenate back to
the original rows. -/
theorem C9_split_half (zs : List (List ℚ) → List (List ℚ))
    (inputs : List (String × StoryInput)) (zd zm : Bool)
    (hlen : ∀ si ∈ inputs, ∀ sd ∈ si.2.data,
      sd.2.length = si.2.model.length) :
    split_half zs inputs zd zm = Except.ok
      (inputs.map (fun si => (si.1, modelSplitSpec zs zm si.2.model)),
       inputs.map (fun si => (si.1, si.2.data.map (fun sd =>
         (sd.1, dataSplitSpec zs zd (si.2.model.length / 2) sd.2))))) ∧
    (∀ si ∈ inputs,
      (si.2.model.take (si.2.model.length / 2)).length =
        si.2.model.length / 2 ∧
      si.2.model.take (si.2.model.length / 2) ++
        si.2.model.drop (si.2.model.length / 2) = si.2.model ∧
      ∀ sd ∈ si.2.data,
        sd.2.take (si.2.model.length / 2) ++
          sd.2.drop (si.2.model.length / 2) = sd.2) := by
  constructor
  · unfold split_half
    rw [exceptMapM_eq_ok _
      (fun si => ((si.1, modelSplitSpec zs zm si.2.model),
        (si.1, si.2.data.map (fun sd =>
          (sd.1, dataSplitSpec zs zd (si.2.model.length / 2) sd.2)))))
      _ (fun si hsi => splitStory_ok zs zd zm si (hlen si hsi))]
    simp only [List.map_map]
    rfl
  · intro si hsi
    refine ⟨?_, List.take_append_drop _ _, fun sd hsd => List.take_append_drop _ _⟩
    rw [List.length_take]
    exact Nat.min_eq_left (Nat.div_le_self _ _)

/-- Witness for C9 on a 2-row model with one matching 2-row subject. -/
theorem C9_split_half_witness :
    split_half id exampleSplitInputs true false = Except.ok
      (exampleSplitInputs.map
        (fun si => (si.1, modelSplitSpec id false si.2.model)),
       exampleSplitInputs.map
        (fun si => (si.1, si.2.data.map (fun sd =>
          (sd.1, dataSplitSpec id true (si.2.model.length / 2) sd.2))))) :=
  (C9_split_half id exampleSplitInputs true false (by decide)).1

end ConnSRM
